import Mathlib

/-!
Verification development for the Handsontable repository.

Part 1 models the Shortcut Context Registry (the ordered shortcut record
store with group-relative insertion, dispatch resolution and bulk removal).
The store implementation itself (`handsontable/src/shortcuts/context.js`)
is not among the provided sources — only its API documentation
(`docs/12.0/api/shortcutContext.md`) and its callers
(`handsontableEditor.js`) are — so the store is modelled from the
specification text (sections 3, 4.1–4.4 of the spec).

Part 2 embeds the `HandsontableEditor` lifecycle
(`handsontable/src/editors/handsontableEditor/handsontableEditor.js`)
as explicit state-passing functions.

Part 3 embeds the numeric helpers (`src/helpers/number.js`).
-/

/-! ### Part 1: the shortcut context registry (modelled from the spec) -/

/-- Modelled from the spec: the `position` field of a shortcut entry,
`'before' | 'after'`, default `'after'` (spec section 3). The source file
`handsontable/src/shortcuts/context.js` is not among the provided sources. -/
inductive Position where
  | before
  | after
deriving DecidableEq

/-- Modelled from the spec: a resolved `ShortcutEntry` as stored in a
context (spec section 3). The callback is modelled by an identifier
`cbId` (so an invocation trace can name it) together with the boolean
`cbReturnsFalse`, true when the callback returns exactly `false` to
signal "stop processing further entries". `runOnlyIf` is the predicate's
value at dispatch time (`none` when absent: the entry always runs).
The source file `handsontable/src/shortcuts/context.js` is missing. -/
structure ShortcutEntry where
  keys : List (List String)
  cbId : Nat
  cbReturnsFalse : Bool
  group : String
  runOnlyIf : Option Bool
  stopPropagation : Bool
  preventDefault : Bool
  position : Position
  relativeToGroup : Option String
deriving DecidableEq

/-- Modelled from the spec: the options object passed to `addShortcut` /
`addShortcuts`; every field is optional so that `addMany` can merge a
per-entry object over `sharedOptions` (spec section 4.2). -/
structure ShortcutOptions where
  keys : Option (List (List String)) := none
  cbId : Option Nat := none
  cbReturnsFalse : Option Bool := none
  group : Option String := none
  runOnlyIf : Option Bool := none
  stopPropagation : Option Bool := none
  preventDefault : Option Bool := none
  position : Option Position := none
  relativeToGroup : Option String := none
deriving DecidableEq

/-- Modelled from the spec: the `InvalidShortcut` condition of spec
section 7 (registration of an empty or malformed key combination). -/
inductive ShortcutError where
  | invalidShortcut
deriving DecidableEq

/-- Modelled from the spec: a shortcut context is the strictly ordered
sequence of its entries (spec sections 3 and 4.2); the combination index
is derived from it by `getShortcuts`. -/
structure ShortcutContext where
  entries : List ShortcutEntry
deriving DecidableEq

/-- Character-wise lowercase of a string (the ASCII fragment of the
JavaScript `toLowerCase` used on key tokens). -/
def lowerString (s : String) : String := ⟨s.data.map Char.toLower⟩

/-- Modelled from the spec: the canonical order of modifier tokens used
by the Key Combination Normalizer (spec section 4.1). -/
def modifierTokens : List String := ["ctrl", "shift", "alt", "meta"]

/-- Modelled from the spec: `normalize(comboTokens)` of spec section 4.1.
Lower-cases every token, moves the modifier tokens (in the fixed
canonical order) ahead of the non-modifier tokens, joins with a
separator, and fails with `InvalidShortcut` on an empty token
sequence. -/
def normalizeCombo (tokens : List String) : Except ShortcutError String :=
  if tokens.isEmpty then
    .error .invalidShortcut
  else
    let lower := tokens.map lowerString
    let mods := modifierTokens.filter (fun m => lower.contains m)
    let rest := lower.filter (fun t => !(modifierTokens.contains t))
    .ok (String.intercalate "+" (mods ++ rest))

/-- A key combination is accepted by the normalizer. -/
def comboOk (c : List String) : Bool :=
  match normalizeCombo c with
  | .ok _ => true
  | .error _ => false

/-- Per-field merge: the first (per-entry) value wins when present,
otherwise the second (shared) value is used. -/
def pick {α : Type} : Option α → Option α → Option α
  | some a, _ => some a
  | none, b => b

/-- Modelled from the spec: merging an entry's own options over
`sharedOptions`, per-entry values winning (spec section 4.2,
`addMany`). -/
def mergeOptions (shared own : ShortcutOptions) : ShortcutOptions where
  keys := pick own.keys shared.keys
  cbId := pick own.cbId shared.cbId
  cbReturnsFalse := pick own.cbReturnsFalse shared.cbReturnsFalse
  group := pick own.group shared.group
  runOnlyIf := pick own.runOnlyIf shared.runOnlyIf
  stopPropagation := pick own.stopPropagation shared.stopPropagation
  preventDefault := pick own.preventDefault shared.preventDefault
  position := pick own.position shared.position
  relativeToGroup := pick own.relativeToGroup shared.relativeToGroup

/-- Modelled from the spec: resolving an options object into a stored
entry, applying the documented defaults `stopPropagation := true`,
`preventDefault := true`, `position := 'after'` (spec section 3). -/
def resolveOptions (o : ShortcutOptions) : ShortcutEntry where
  keys := o.keys.getD []
  cbId := o.cbId.getD 0
  cbReturnsFalse := o.cbReturnsFalse.getD false
  group := o.group.getD ""
  runOnlyIf := o.runOnlyIf
  stopPropagation := o.stopPropagation.getD true
  preventDefault := o.preventDefault.getD true
  position := o.position.getD .after
  relativeToGroup := o.relativeToGroup

/-- Modelled from the spec: insertion immediately before the first entry
belonging to the anchor group; when the group has no entries the entry
is appended at the tail (spec sections 4.2 and 4.3: "before" anchors to
the first occurrence). -/
def insertBeforeFirst (g : String) (e : ShortcutEntry) :
    List ShortcutEntry → List ShortcutEntry
  | [] => [e]
  | x :: xs =>
      if x.group = g then e :: x :: xs
      else x :: insertBeforeFirst g e xs

/-- Modelled from the spec: insertion immediately after the last entry
belonging to the anchor group; when the group has no entries the entry
is appended at the tail (spec sections 4.2 and 4.3: "after" anchors to
the last occurrence). -/
def insertAfterLast (g : String) (e : ShortcutEntry) :
    List ShortcutEntry → List ShortcutEntry
  | [] => [e]
  | x :: xs =>
      if xs.any (fun y => y.group = g) then x :: insertAfterLast g e xs
      else if x.group = g then x :: e :: xs
      else x :: insertAfterLast g e xs

/-- Modelled from the spec: the Group-Relative Ordering Engine (spec
section 4.3) combined with `add`'s insertion rule (spec section 4.2):
tail insertion unless `relativeToGroup` is given. -/
def insertRelative (rel : Option String) (pos : Position)
    (e : ShortcutEntry) (es : List ShortcutEntry) : List ShortcutEntry :=
  match rel with
  | none => es ++ [e]
  | some g =>
      match pos with
      | .before => insertBeforeFirst g e es
      | .after => insertAfterLast g e es

/-- Modelled from the spec: `add(entry)` of spec section 4.2. The entry's
key combinations are normalized first; an empty combination is rejected
with `InvalidShortcut` and in that case nothing is inserted (spec
section 7: "registration is rejected, no partial mutation occurs"). -/
def addShortcut (o : ShortcutOptions) (ctx : ShortcutContext) :
    Except ShortcutError ShortcutContext :=
  let e := resolveOptions o
  if e.keys.all comboOk then
    .ok ⟨insertRelative e.relativeToGroup e.position e ctx.entries⟩
  else
    .error .invalidShortcut

/-- Modelled from the spec: `addMany(entries, sharedOptions)` of spec
section 4.2: applies `add` for each entry in input order, with the
entry's own options merged over `sharedOptions`. -/
def addShortcuts (shortcuts : List ShortcutOptions) (shared : ShortcutOptions)
    (ctx : ShortcutContext) : Except ShortcutError ShortcutContext :=
  match shortcuts with
  | [] => .ok ctx
  | o :: os =>
      match addShortcut (mergeOptions shared o) ctx with
      | .ok ctx2 => addShortcuts os shared ctx2
      | .error err => .error err

/-- An entry references the normalized combination `n`. -/
def entryMatches (n : String) (e : ShortcutEntry) : Bool :=
  e.keys.any (fun c =>
    match normalizeCombo c with
    | .ok m => m = n
    | .error _ => false)

/-- Modelled from the spec: `get(keys)` of spec section 4.2: the entries
matching the normalized combination, in store order. -/
def getShortcuts (ctx : ShortcutContext) (combo : List String) :
    List ShortcutEntry :=
  match normalizeCombo combo with
  | .ok n => ctx.entries.filter (entryMatches n)
  | .error _ => []

/-- Modelled from the spec: `has(keys)` of spec section 4.2. -/
def hasShortcut (ctx : ShortcutContext) (combo : List String) : Bool :=
  !(getShortcuts ctx combo).isEmpty

/-- Modelled from the spec: `removeByGroup(group)` of spec section 4.2:
removes all entries carrying the group tag, preserving the order of the
remaining entries. -/
def removeShortcutsByGroup (g : String) (ctx : ShortcutContext) :
    ShortcutContext :=
  ⟨ctx.entries.filter (fun e => !(e.group = g))⟩

/-- Modelled from the spec: the Dispatch Resolver's filtering step (spec
section 4.4): matching entries in store order, those whose `runOnlyIf`
predicate evaluates to false removed. -/
def matchingShortcuts (ctx : ShortcutContext) (combo : List String) :
    List ShortcutEntry :=
  (getShortcuts ctx combo).filter (fun e => e.runOnlyIf.getD true)

/-- Modelled from the spec: invoking the callbacks in order, stopping as
soon as one returns exactly `false` (spec section 4.4); the result is
the trace of invoked callback identifiers. -/
def invokeAll : List ShortcutEntry → List Nat
  | [] => []
  | e :: rest =>
      if e.cbReturnsFalse then [e.cbId]
      else e.cbId :: invokeAll rest

/-- Modelled from the spec: the trace of callbacks a dispatch of the
observed combination invokes (spec section 4.4). -/
def dispatchInvoked (ctx : ShortcutContext) (combo : List String) : List Nat :=
  invokeAll (matchingShortcuts ctx combo)

example : normalizeCombo ["A", "ctrl"] = .ok "ctrl+a" := rfl
example : normalizeCombo [] = .error .invalidShortcut := rfl
example : insertBeforeFirst "g" (resolveOptions {}) [] = [resolveOptions {}] := rfl

/-! ### Lemmas about the group-relative insertion functions -/

theorem insertBeforeFirst_first (g : String) (e : ShortcutEntry) :
    ∀ (l : List ShortcutEntry) (x : ShortcutEntry) (r : List ShortcutEntry),
      (∀ z ∈ l, z.group ≠ g) → x.group = g →
      insertBeforeFirst g e (l ++ x :: r) = l ++ e :: x :: r := by
  intro l
  induction l with
  | nil =>
      intro x r _ hx
      simp [insertBeforeFirst, hx]
  | cons a l ih =>
      intro x r hl hx
      have ha : ¬(a.group = g) := hl a (by simp)
      simp only [List.cons_append, insertBeforeFirst, if_neg ha, List.append_eq]
      rw [ih x r (fun z hz => hl z (List.mem_cons_of_mem a hz)) hx]

theorem insertBeforeFirst_tail (g : String) (e : ShortcutEntry) :
    ∀ es : List ShortcutEntry, (∀ z ∈ es, z.group ≠ g) →
      insertBeforeFirst g e es = es ++ [e] := by
  intro es
  induction es with
  | nil => intro _; rfl
  | cons a es ih =>
      intro hes
      have ha : ¬(a.group = g) := hes a (by simp)
      simp only [insertBeforeFirst, if_neg ha, List.cons_append]
      rw [ih (fun z hz => hes z (List.mem_cons_of_mem a hz))]

theorem insertAfterLast_last (g : String) (e : ShortcutEntry) :
    ∀ (l : List ShortcutEntry) (x : ShortcutEntry) (r : List ShortcutEntry),
      (∀ z ∈ r, z.group ≠ g) → x.group = g →
      insertAfterLast g e (l ++ x :: r) = l ++ x :: e :: r := by
  intro l
  induction l with
  | nil =>
      intro x r hr hx
      have hany : r.any (fun y => y.group = g) = false := by
        simp only [List.any_eq_false, decide_eq_true_eq]
        exact hr
      simp [insertAfterLast, hany, hx]
  | cons a l ih =>
      intro x r hr hx
      have hany : (l ++ x :: r).any (fun y => y.group = g) = true := by
        simp only [List.any_eq_true, decide_eq_true_eq]
        exact ⟨x, by simp, hx⟩
      simp only [List.cons_append, insertAfterLast, List.append_eq, hany, if_true]
      rw [ih x r hr hx]

theorem insertAfterLast_tail (g : String) (e : ShortcutEntry) :
    ∀ es : List ShortcutEntry, (∀ z ∈ es, z.group ≠ g) →
      insertAfterLast g e es = es ++ [e] := by
  intro es
  induction es with
  | nil => intro _; rfl
  | cons a es ih =>
      intro hes
      have ha : ¬(a.group = g) := hes a (by simp)
      have hany : es.any (fun y => y.group = g) = false := by
        simp only [List.any_eq_false, decide_eq_true_eq]
        exact fun z hz => hes z (List.mem_cons_of_mem a hz)
      simp only [insertAfterLast, hany, Bool.false_eq_true, if_false, if_neg ha,
        List.cons_append]
      rw [ih (fun z hz => hes z (List.mem_cons_of_mem a hz))]

theorem mem_insertBeforeFirst (g : String) (e : ShortcutEntry) :
    ∀ es : List ShortcutEntry, e ∈ insertBeforeFirst g e es := by
  intro es
  induction es with
  | nil => simp [insertBeforeFirst]
  | cons a es ih =>
      by_cases ha : a.group = g
      · simp [insertBeforeFirst, ha]
      · simp only [insertBeforeFirst, if_neg ha]
        exact List.mem_cons_of_mem a ih

theorem mem_insertAfterLast (g : String) (e : ShortcutEntry) :
    ∀ es : List ShortcutEntry, e ∈ insertAfterLast g e es := by
  intro es
  induction es with
  | nil => simp [insertAfterLast]
  | cons a es ih =>
      by_cases hany : es.any (fun y => y.group = g) = true
      · simp only [insertAfterLast, hany, if_true]
        exact List.mem_cons_of_mem a ih
      · by_cases ha : a.group = g
        · simp [insertAfterLast, Bool.eq_false_iff.2 hany, ha]
        · simp only [insertAfterLast, Bool.eq_false_iff.2 hany, Bool.false_eq_true,
            if_false, if_neg ha]
          exact List.mem_cons_of_mem a ih

theorem mem_insertRelative (rel : Option String) (pos : Position)
    (e : ShortcutEntry) (es : List ShortcutEntry) :
    e ∈ insertRelative rel pos e es := by
  match rel with
  | none => simp [insertRelative]
  | some g =>
      match pos with
      | .before => exact mem_insertBeforeFirst g e es
      | .after => exact mem_insertAfterLast g e es

/-! ### Sample data used by the witnesses -/

/-- Sample options registering the combination `['a']` in group `g1`. -/
def sampleA : ShortcutOptions := { keys := some [["a"]], cbId := some 1, group := some "g1" }

/-- Sample options anchored before group `g1`. -/
def sampleBefore : ShortcutOptions :=
  { keys := some [["b"]], cbId := some 2, group := some "g2",
    relativeToGroup := some "g1", position := some .before }

/-- Sample options anchored after group `g1`. -/
def sampleAfter : ShortcutOptions :=
  { keys := some [["b"]], cbId := some 3, group := some "g2",
    relativeToGroup := some "g1", position := some .after }

/-- Sample options anchored to a group with no entries. -/
def sampleOrphan : ShortcutOptions :=
  { keys := some [["b"]], cbId := some 4, group := some "g2",
    relativeToGroup := some "gX", position := some .before }

/-- Sample context holding only the entry of `sampleA`. -/
def sampleCtx : ShortcutContext := ⟨[resolveOptions sampleA]⟩

/-! ### C1: group-relative insertion -/

/-- C1: for every store, anchor group `G` with at least one entry and new
entry registered with `relativeToGroup G`, `add` inserts the entry
immediately before the first entry of `G` when `position` is `'before'`
and immediately after the last entry of `G` when `position` is
`'after'`; when `G` has no entries the new entry is appended at the
tail. -/
theorem addShortcut_group_relative (o : ShortcutOptions) (ctx : ShortcutContext)
    (g : String) (hg : (resolveOptions o).relativeToGroup = some g)
    (hv : (resolveOptions o).keys.all comboOk = true) :
    ((resolveOptions o).position = .before →
      ∀ l x r, ctx.entries = l ++ x :: r → (∀ z ∈ l, z.group ≠ g) → x.group = g →
        addShortcut o ctx = .ok ⟨l ++ resolveOptions o :: x :: r⟩) ∧
    ((resolveOptions o).position = .after →
      ∀ l x r, ctx.entries = l ++ x :: r → (∀ z ∈ r, z.group ≠ g) → x.group = g →
        addShortcut o ctx = .ok ⟨l ++ x :: resolveOptions o :: r⟩) ∧
    ((∀ z ∈ ctx.entries, z.group ≠ g) →
      addShortcut o ctx = .ok ⟨ctx.entries ++ [resolveOptions o]⟩) := by
  refine ⟨?_, ?_, ?_⟩
  · intro hpos l x r hsplit hl hx
    simp only [addShortcut, hv, if_true, insertRelative, hg, hpos, hsplit]
    rw [insertBeforeFirst_first g (resolveOptions o) l x r hl hx]
  · intro hpos l x r hsplit hr hx
    simp only [addShortcut, hv, if_true, insertRelative, hg, hpos, hsplit]
    rw [insertAfterLast_last g (resolveOptions o) l x r hr hx]
  · intro hnone
    simp only [addShortcut, hv, if_true, insertRelative, hg]
    cases hpos : (resolveOptions o).position with
    | before => rw [insertBeforeFirst_tail g (resolveOptions o) ctx.entries hnone]
    | after => rw [insertAfterLast_tail g (resolveOptions o) ctx.entries hnone]

/-- C1 witness: inserting before the only member of `g1` yields
`[new, old]`, inserting after yields `[old, new]`, and anchoring to an
absent group appends at the tail. -/
theorem addShortcut_group_relative_witness :
    addShortcut sampleBefore sampleCtx
      = .ok ⟨[resolveOptions sampleBefore, resolveOptions sampleA]⟩ ∧
    addShortcut sampleAfter sampleCtx
      = .ok ⟨[resolveOptions sampleA, resolveOptions sampleAfter]⟩ ∧
    addShortcut sampleOrphan sampleCtx
      = .ok ⟨[resolveOptions sampleA, resolveOptions sampleOrphan]⟩ := by
  refine ⟨?_, ?_, ?_⟩
  · exact (addShortcut_group_relative sampleBefore sampleCtx "g1" rfl rfl).1 rfl
      [] (resolveOptions sampleA) [] rfl (by simp) rfl
  · exact (addShortcut_group_relative sampleAfter sampleCtx "g1" rfl rfl).2.1 rfl
      [] (resolveOptions sampleA) [] rfl (by simp) rfl
  · exact (addShortcut_group_relative sampleOrphan sampleCtx "gX" rfl rfl).2.2
      (by decide)

/-! ### C5: removal by group -/

/-- C5: `removeByGroup(G)` removes exactly the entries whose group tag is
`G`: the remaining entries are a subsequence of the prior store (prior
relative order and contents unchanged), every entry of another group is
kept, every kept entry is of another group, and `get` becomes empty for
every key that only entries of `G` referenced. -/
theorem removeShortcutsByGroup_spec (ctx : ShortcutContext) (g : String) :
    (removeShortcutsByGroup g ctx).entries.Sublist ctx.entries ∧
    (∀ e ∈ ctx.entries, e.group ≠ g → e ∈ (removeShortcutsByGroup g ctx).entries) ∧
    (∀ e ∈ (removeShortcutsByGroup g ctx).entries, e.group ≠ g) ∧
    (∀ combo, (∀ e ∈ getShortcuts ctx combo, e.group = g) →
      getShortcuts (removeShortcutsByGroup g ctx) combo = []) := by
  refine ⟨List.filter_sublist _, ?_, ?_, ?_⟩
  · intro e he hne
    simp only [removeShortcutsByGroup, List.mem_filter, Bool.not_eq_true',
      decide_eq_false_iff_not]
    exact ⟨he, hne⟩
  · intro e he
    simp only [removeShortcutsByGroup, List.mem_filter, Bool.not_eq_true',
      decide_eq_false_iff_not] at he
    exact he.2
  · intro combo honly
    cases hn : normalizeCombo combo with
    | error err =>
        simp [getShortcuts, hn]
    | ok n =>
        simp only [getShortcuts, hn, removeShortcutsByGroup] at honly ⊢
        rw [List.filter_eq_nil_iff]
        intro a ha
        rw [List.mem_filter] at ha
        intro hmatch
        have hgrp : a.group = g := honly a (List.mem_filter.2 ⟨ha.1, hmatch⟩)
        rw [Bool.not_eq_true', decide_eq_false_iff_not] at ha
        exact ha.2 hgrp

/-- C5 witness: removing group `g1` from a two-group store keeps exactly
the `g2` entry and empties the lookup of the key only `g1`
referenced. -/
theorem removeShortcutsByGroup_witness :
    resolveOptions sampleBefore ∈
      (removeShortcutsByGroup "g1"
        ⟨[resolveOptions sampleA, resolveOptions sampleBefore]⟩).entries ∧
    getShortcuts (removeShortcutsByGroup "g1"
        ⟨[resolveOptions sampleA, resolveOptions sampleBefore]⟩) ["a"] = [] := by
  have h := removeShortcutsByGroup_spec
    ⟨[resolveOptions sampleA, resolveOptions sampleBefore]⟩ "g1"
  exact ⟨h.2.1 (resolveOptions sampleBefore) (by simp) (by decide),
    h.2.2.2 ["a"] (by decide)⟩

/-! ### C2: dispatch stops at the first callback returning false -/

theorem invokeAll_characterization (l : List ShortcutEntry) :
    invokeAll l =
      (l.takeWhile (fun e => !e.cbReturnsFalse)).map ShortcutEntry.cbId
        ++ ((l.dropWhile (fun e => !e.cbReturnsFalse)).take 1).map ShortcutEntry.cbId := by
  induction l with
  | nil => rfl
  | cons e rest ih =>
      cases h : e.cbReturnsFalse with
      | true => simp [invokeAll, List.takeWhile_cons, List.dropWhile_cons, h]
      | false => simp [invokeAll, List.takeWhile_cons, List.dropWhile_cons, h, ih]

/-- C2: the callbacks a dispatch invokes are exactly the matching entries
(those passing `runOnlyIf`) in store order up to and including the first
whose callback returns `false`; no later entry is invoked, and in
particular with exactly two matching entries whose first callback
returns `false` the second callback is never invoked. -/
theorem dispatchInvoked_stops (ctx : ShortcutContext) (combo : List String) :
    (dispatchInvoked ctx combo =
      ((matchingShortcuts ctx combo).takeWhile (fun e => !e.cbReturnsFalse)).map
          ShortcutEntry.cbId
        ++ (((matchingShortcuts ctx combo).dropWhile (fun e => !e.cbReturnsFalse)).take 1).map
          ShortcutEntry.cbId) ∧
    (∀ e1 e2 : ShortcutEntry, e1.cbReturnsFalse = true →
      invokeAll [e1, e2] = [e1.cbId]) := by
  refine ⟨invokeAll_characterization _, ?_⟩
  intro e1 e2 h1
  simp [invokeAll, h1]

/-- Sample entry matching `ctrl+z` whose callback returns `false`. -/
def stopEntry : ShortcutEntry :=
  resolveOptions
    { keys := some [["ctrl", "z"]], cbId := some 10,
      cbReturnsFalse := some true, group := some "gs" }

/-- Sample entry matching `ctrl+z` following `stopEntry` in store order. -/
def nextEntry : ShortcutEntry :=
  resolveOptions { keys := some [["ctrl", "z"]], cbId := some 11, group := some "gt" }

/-- Sample context holding the two `ctrl+z` entries. -/
def ctxZ : ShortcutContext := ⟨[stopEntry, nextEntry]⟩

/-- C2 witness: dispatching `['ctrl','z']` against the two-entry store
invokes only the first callback (id 10), never the second (id 11). -/
theorem dispatchInvoked_stops_witness :
    dispatchInvoked ctxZ ["ctrl", "z"] = [10] ∧
    invokeAll [stopEntry, nextEntry] = [stopEntry.cbId] := by
  have h := dispatchInvoked_stops ctxZ ["ctrl", "z"]
  exact ⟨h.1.trans (by decide), h.2 stopEntry nextEntry rfl⟩

/-! ### C3: addMany merges shared options under per-entry options -/

/-- C3: `addMany` applies `add` to each entry in input order with the
entry's own options merged over `sharedOptions`, per-entry values
winning: an option set only in `sharedOptions` (such as
`stopPropagation: false`) appears on the resulting entry, an option set
on the entry itself overrides the shared value, and the merged entry is
what gets inserted into the store. -/
theorem addShortcuts_merge (shared o : ShortcutOptions) (os : List ShortcutOptions)
    (ctx : ShortcutContext) :
    (∀ ctx2, addShortcut (mergeOptions shared o) ctx = .ok ctx2 →
      addShortcuts (o :: os) shared ctx = addShortcuts os shared ctx2) ∧
    (∀ b, o.stopPropagation = none → shared.stopPropagation = some b →
      (resolveOptions (mergeOptions shared o)).stopPropagation = b) ∧
    (∀ b, o.stopPropagation = some b →
      (resolveOptions (mergeOptions shared o)).stopPropagation = b) ∧
    (∀ s, o.group = none → shared.group = some s →
      (resolveOptions (mergeOptions shared o)).group = s) ∧
    (∀ ctx2, addShortcut (mergeOptions shared o) ctx = .ok ctx2 →
      resolveOptions (mergeOptions shared o) ∈ ctx2.entries) := by
  refine ⟨?_, ?_, ?_, ?_, ?_⟩
  · intro ctx2 h
    simp [addShortcuts, h]
  · intro b ho hs
    simp [resolveOptions, mergeOptions, pick, ho, hs]
  · intro b ho
    simp [resolveOptions, mergeOptions, pick, ho]
  · intro s ho hs
    simp [resolveOptions, mergeOptions, pick, ho, hs]
  · intro ctx2 h
    by_cases hv : (resolveOptions (mergeOptions shared o)).keys.all comboOk = true
    · simp only [addShortcut, hv, if_true, Except.ok.injEq] at h
      rw [← h]
      exact mem_insertRelative _ _ _ _
    · simp [addShortcut, hv] at h

/-- Shared options of the spec's `addShortcuts` scenario. -/
def sharedOpts : ShortcutOptions := { group := some "g", stopPropagation := some false }

/-- Per-entry options of the spec's `addShortcuts` scenario: only `keys`
is set on the entry itself. -/
def enterOpts : ShortcutOptions := { keys := some [["enter"]] }

/-- C3 witness: `addShortcuts([{keys:[['enter']]}], {group:'g',
stopPropagation:false})` yields an entry with `stopPropagation` equal to
`false` and group `'g'`, though neither is set on the entry itself. -/
theorem addShortcuts_merge_witness :
    addShortcuts [enterOpts] sharedOpts ⟨[]⟩
      = .ok ⟨[resolveOptions (mergeOptions sharedOpts enterOpts)]⟩ ∧
    (resolveOptions (mergeOptions sharedOpts enterOpts)).stopPropagation = false ∧
    (resolveOptions (mergeOptions sharedOpts enterOpts)).group = "g" ∧
    resolveOptions (mergeOptions sharedOpts enterOpts) ∈
      (⟨[resolveOptions (mergeOptions sharedOpts enterOpts)]⟩ : ShortcutContext).entries := by
  have h := addShortcuts_merge sharedOpts enterOpts [] ⟨[]⟩
  exact ⟨(h.1 ⟨[resolveOptions (mergeOptions sharedOpts enterOpts)]⟩ rfl).trans rfl,
    h.2.1 false rfl rfl, h.2.2.2.1 "g" rfl rfl,
    h.2.2.2.2 ⟨[resolveOptions (mergeOptions sharedOpts enterOpts)]⟩ rfl⟩

/-! ### C4: an empty key combination is rejected without mutation -/

/-- C4: registering options whose key list contains an empty token
sequence fails with `InvalidShortcut` (the normalizer rejects the empty
combination) and the store is left unchanged: `add` never returns a
successor store, so no entry is added and the combination index derived
from the store is untouched. -/
theorem addShortcut_invalid (o : ShortcutOptions) (ks : List (List String))
    (ctx : ShortcutContext) (hk : o.keys = some ks) (hmem : [] ∈ ks) :
    normalizeCombo [] = .error .invalidShortcut ∧
    addShortcut o ctx = .error .invalidShortcut ∧
    (∀ ctx2, addShortcut o ctx ≠ .ok ctx2) := by
  have hkeys : (resolveOptions o).keys = ks := by simp [resolveOptions, hk]
  have hall : (resolveOptions o).keys.all comboOk = false := by
    rw [hkeys, List.all_eq_false]
    exact ⟨[], hmem, by simp [comboOk, normalizeCombo]⟩
  refine ⟨rfl, ?_, ?_⟩
  · simp [addShortcut, hall]
  · intro ctx2
    simp [addShortcut, hall]

/-- C4 witness: registering `{keys: [[]], group: 'g'}` against the sample
store is rejected with `InvalidShortcut`. -/
theorem addShortcut_invalid_witness :
    normalizeCombo [] = .error .invalidShortcut ∧
    addShortcut { keys := some [[]], group := some "g" } sampleCtx
      = .error .invalidShortcut := by
  have h := addShortcut_invalid { keys := some [[]], group := some "g" } [[]]
    sampleCtx rfl (by simp)
  exact ⟨h.1, h.2.1⟩

/-! ### Part 2: the HandsontableEditor lifecycle
(`handsontable/src/editors/handsontableEditor/handsontableEditor.js`) -/

/-- Observable state of a `HandsontableEditor` as manipulated by `open`
(lines 38–66), `close` (lines 71–78), `finishEditing` (lines 164–185)
and the `afterDestroy` hook installed by `assignHooks` (lines 192–198).
Nested grid instances are named by identifiers: `htEditor` is the
currently held instance (the `this.htEditor` field), `destroyed` records
every instance on which `destroy()` was called, and `nextId` is the next
fresh identifier a `new this.hot.constructor(...)` construction uses.
`nestedSelection` is the nested instance's `getSelectedLast()` result,
`selectionValue` its `getValue()` result (`none` models `undefined`),
`caret` the text area's selection range set by `setCaretPosition`, and
`beforeKeyDownHooks` the number of attached `beforeKeyDown` hooks.
Behaviour of the `TextEditor` superclass is outside the provided
sources and leaves these fields unchanged. -/
structure EditorState where
  htEditor : Option Nat
  destroyed : List Nat
  nextId : Nat
  containerDisplayNone : Bool
  nestedDisplayNone : Bool
  valueFromSelection : Bool
  mouseDownHookAttached : Bool
  beforeKeyDownHooks : Nat
  caret : Option (Nat × Nat)
  textareaValue : String
  strict : Bool
  nestedSelection : Option (Nat × Nat)
  selectionValue : Option String
deriving DecidableEq

/-- Embedding of `HandsontableEditor.open` (lines 38–66): destroys any
previously held nested instance, shows the container, constructs and
initializes a fresh nested instance with its root element visible,
selects cell (0,0) in strict mode and deselects otherwise, attaches the
`beforeOnCellMouseDown` hook, and seeds the caret over the whole text
area value. -/
def openEditor (s : EditorState) : EditorState :=
  { s with
    destroyed :=
      match s.htEditor with
      | some i => i :: s.destroyed
      | none => s.destroyed,
    containerDisplayNone := false,
    htEditor := some s.nextId,
    nextId := s.nextId + 1,
    nestedDisplayNone := false,
    nestedSelection := if s.strict then some (0, 0) else none,
    mouseDownHookAttached := true,
    caret := some (0, s.textareaValue.length) }

/-- Embedding of the `beforeOnCellMouseDown` hook attached by `open`
(lines 60–62): when attached, firing it sets `valueFromSelection`. -/
def fireBeforeOnCellMouseDown (s : EditorState) : EditorState :=
  if s.mouseDownHookAttached then { s with valueFromSelection := true } else s

/-- Embedding of `HandsontableEditor.close` (lines 71–78): hides the
nested instance's root element when one is held and removes the
`beforeKeyDown` hooks; it does not destroy the nested instance. -/
def closeEditor (s : EditorState) : EditorState :=
  { s with
    nestedDisplayNone := if s.htEditor.isSome then true else s.nestedDisplayNone,
    beforeKeyDownHooks := 0 }

/-- Embedding of the `afterDestroy` hook assigned in `assignHooks`
(lines 192–198): on the host grid's teardown the held nested instance is
destroyed. -/
def hostAfterDestroy (s : EditorState) : EditorState :=
  match s.htEditor with
  | some i => { s with destroyed := i :: s.destroyed }
  | none => s

/-- Embedding of the value-committing step of
`HandsontableEditor.finishEditing` (lines 164–185): the argument passed
to `setValue` (`none` when `setValue` is not called). The value comes
from the nested instance's `getValue()` when `valueFromSelection` is
set, from the raw text area otherwise, and only when the editor holds a
nested instance with a last selection; an `undefined` value is not
written. -/
def finishEditingWrite (s : EditorState) : Option String :=
  if s.htEditor.isSome && s.nestedSelection.isSome then
    if s.valueFromSelection then s.selectionValue else some s.textareaValue
  else none

/-- Sample editor state already holding nested instance 0. -/
def editorWithInstance : EditorState :=
  { htEditor := some 0, destroyed := [], nextId := 1, containerDisplayNone := true,
    nestedDisplayNone := false, valueFromSelection := false,
    mouseDownHookAttached := false, beforeKeyDownHooks := 1, caret := none,
    textareaValue := "ab", strict := false, nestedSelection := none,
    selectionValue := none }

/-! ### C6: what `open` does with the nested instance -/

/-- C6 counterexample: on an editor already holding nested instance 0,
`open` does not reuse that instance: it destroys instance 0 and holds a
different, freshly constructed one afterwards. -/
theorem openEditor_not_reusing : 
    (openEditor editorWithInstance).htEditor ≠ editorWithInstance.htEditor ∧
    0 ∈ (openEditor editorWithInstance).destroyed := by
  decide

/-- C6 (amended): every call to `open` constructs a fresh nested grid
instance — destroying any previously constructed instance rather than
reusing it — attaches the selection-forwarding `beforeOnCellMouseDown`
hook setting `valueFromSelection`, shows the new instance, and seeds the
caret position over the text area's value. -/
theorem openEditor_spec (s : EditorState) :
    ((openEditor s).htEditor = some s.nextId ∧
      (openEditor s).nextId = s.nextId + 1) ∧
    (∀ i, s.htEditor = some i → i ∈ (openEditor s).destroyed) ∧
    (openEditor s).mouseDownHookAttached = true ∧
    (fireBeforeOnCellMouseDown (openEditor s)).valueFromSelection = true ∧
    (openEditor s).caret = some (0, s.textareaValue.length) ∧
    (openEditor s).nestedDisplayNone = false := by
  refine ⟨⟨rfl, rfl⟩, ?_, rfl, ?_, rfl, rfl⟩
  · intro i hi
    simp [openEditor, hi]
  · simp [openEditor, fireBeforeOnCellMouseDown]

/-- C6 witness: opening the sample editor holding instance 0 yields
instance 1, destroys instance 0, and seeds the caret over `"ab"`. -/
theorem openEditor_spec_witness :
    (openEditor editorWithInstance).htEditor = some 1 ∧
    0 ∈ (openEditor editorWithInstance).destroyed ∧
    (openEditor editorWithInstance).caret = some (0, 2) := by
  have h := openEditor_spec editorWithInstance
  exact ⟨h.1.1, h.2.1 0 rfl, h.2.2.2.2.1⟩

/-! ### C7: where `finishEditing` takes the committed value from -/

/-- C7: `finishEditing` commits the nested instance's selection value
when a selection occurred during the session (`valueFromSelection` set,
nested instance held and holding a last selection), commits the raw text
input otherwise, and writes no value at all when the nested instance has
no last selection. -/
theorem finishEditingWrite_spec (s : EditorState) :
    (s.htEditor.isSome = true → s.nestedSelection.isSome = true →
      finishEditingWrite s =
        (if s.valueFromSelection then s.selectionValue else some s.textareaValue)) ∧
    (s.nestedSelection = none → finishEditingWrite s = none) ∧
    (s.htEditor = none → finishEditingWrite s = none) := by
  refine ⟨?_, ?_, ?_⟩
  · intro h1 h2
    simp [finishEditingWrite, h1, h2]
  · intro h
    simp [finishEditingWrite, h]
  · intro h
    simp [finishEditingWrite, h]

/-- Sample editor state whose nested instance has a selection made during
the session. -/
def editorSelPicked : EditorState :=
  { editorWithInstance with
    nestedSelection := some (1, 0),
    valueFromSelection := true, selectionValue := some "picked" }

/-- Sample editor state whose nested instance has a selection but where
no selection happened during the session. -/
def editorSelTyped : EditorState :=
  { editorWithInstance with
    nestedSelection := some (1, 0),
    textareaValue := "typed" }

/-- C7 witness: with a nested selection present the committed value is
the selection's value under `valueFromSelection` and the text area's
value otherwise; with no nested selection nothing is written. -/
theorem finishEditingWrite_spec_witness :
    finishEditingWrite editorSelPicked = some "picked" ∧
    finishEditingWrite editorSelTyped = some "typed" ∧
    finishEditingWrite editorWithInstance = none := by
  refine ⟨?_, ?_, ?_⟩
  · exact ((finishEditingWrite_spec editorSelPicked).1 rfl rfl).trans (by decide)
  · exact ((finishEditingWrite_spec editorSelTyped).1 rfl rfl).trans (by decide)
  · exact (finishEditingWrite_spec editorWithInstance).2.1 rfl

/-! ### C8: `close` hides but does not destroy; teardown destroys -/

/-- C8: `close` hides the nested instance's root element without
destroying the nested instance and detaches the transient
`beforeKeyDown` hooks; the nested instance is destroyed only by the
host grid's `afterDestroy` teardown hook. -/
theorem closeEditor_spec (s : EditorState) :
    (s.htEditor.isSome = true → (closeEditor s).nestedDisplayNone = true) ∧
    (closeEditor s).destroyed = s.destroyed ∧
    (closeEditor s).htEditor = s.htEditor ∧
    (closeEditor s).beforeKeyDownHooks = 0 ∧
    (∀ i, s.htEditor = some i → i ∈ (hostAfterDestroy s).destroyed) := by
  refine ⟨?_, rfl, rfl, rfl, ?_⟩
  · intro h
    simp [closeEditor, h]
  · intro i hi
    simp [hostAfterDestroy, hi]

/-- C8 witness: closing the sample editor hides instance 0's root
element, destroys nothing and clears the `beforeKeyDown` hooks, while
the host teardown destroys instance 0. -/
theorem closeEditor_spec_witness :
    (closeEditor editorWithInstance).nestedDisplayNone = true ∧
    (closeEditor editorWithInstance).destroyed = [] ∧
    (closeEditor editorWithInstance).beforeKeyDownHooks = 0 ∧
    0 ∈ (hostAfterDestroy editorWithInstance).destroyed := by
  have h := closeEditor_spec editorWithInstance
  exact ⟨h.1 rfl, h.2.1, h.2.2.2.1, h.2.2.2.2 0 rfl⟩

/-! ### Part 3: the numeric helpers (`src/helpers/number.js`) -/

/-- Fuel-indexed body of the `while (++index <= rangeTo)` loop of
`rangeEach` (`src/helpers/number.js` lines 27–41): the trace of indices
the iteratee is invoked on, starting at `i`, with `n` remaining
iterations, stopping after an invocation returning exactly `false` (the
iteratee returns `false`; any other return value continues). -/
def rangeIterFuel (f : Int → Bool) : Nat → Int → List Int
  | 0, _ => []
  | n + 1, i => if f i then i :: rangeIterFuel f n (i + 1) else [i]

/-- Trace of `rangeEach`'s loop from `lo` while the index stays at most
`hi`: the loop performs `(hi + 1 - lo)⁺` iterations unless stopped. -/
def rangeIter (f : Int → Bool) (lo hi : Int) : List Int :=
  rangeIterFuel f (hi + 1 - lo).toNat lo

/-- Embedding of `rangeEach` (`src/helpers/number.js` lines 27–41) as
the trace of indices the iteratee is invoked on. The source overloads
its second argument: in the three-argument form it is the upper bound
(`rangeEach lo (some hi) f`, iterating from `lo`), in the two-argument
form it is the iteratee itself (`rangeEach n none f`), in which case the
index starts at `-1` and is pre-incremented, so iteration runs from `0`
up to the first argument. -/
def rangeEach (rangeFrom : Int) (rangeTo : Option Int) (iteratee : Int → Bool) :
    List Int :=
  match rangeTo with
  | some hi => rangeIter iteratee rangeFrom hi
  | none => rangeIter iteratee 0 rangeFrom

/-- Ascending integers `lo, lo + 1, …` of length `n`. -/
def ascFrom (lo : Int) : Nat → List Int
  | 0 => []
  | n + 1 => lo :: ascFrom (lo + 1) n

/-- Ascending integers from `lo` up to and including `hi`. -/
def ascRange (lo hi : Int) : List Int :=
  ascFrom lo (hi + 1 - lo).toNat

theorem rangeIterFuel_characterization (f : Int → Bool) :
    ∀ (n : Nat) (lo : Int),
      rangeIterFuel f n lo =
        (ascFrom lo n).takeWhile f ++ ((ascFrom lo n).dropWhile f).take 1 := by
  intro n
  induction n with
  | zero => intro lo; rfl
  | succ n ih =>
      intro lo
      show rangeIterFuel f (n + 1) lo =
        (lo :: ascFrom (lo + 1) n).takeWhile f
          ++ ((lo :: ascFrom (lo + 1) n).dropWhile f).take 1
      cases h : f lo with
      | true =>
          simp only [rangeIterFuel, h, if_true, List.takeWhile_cons,
            List.dropWhile_cons, ih (lo + 1), List.cons_append]
      | false =>
          simp [rangeIterFuel, h, List.takeWhile_cons, List.dropWhile_cons]

/-- C9: for `rangeFrom ≤ rangeTo`, `rangeEach(rangeFrom, rangeTo,
iteratee)` invokes the iteratee on the ascending integers from
`rangeFrom` up to and including `rangeTo`, stopping immediately after
the first invocation returning exactly `false`; the two-argument form
`rangeEach(rangeTo, iteratee)` runs from `0` to `rangeTo` inclusive
under the same stopping rule. -/
theorem rangeEach_spec (rangeFrom rangeTo : Int) (f : Int → Bool)
    (_hle : rangeFrom ≤ rangeTo) :
    rangeEach rangeFrom (some rangeTo) f =
      (ascRange rangeFrom rangeTo).takeWhile f
        ++ ((ascRange rangeFrom rangeTo).dropWhile f).take 1 ∧
    rangeEach rangeTo none f =
      (ascRange 0 rangeTo).takeWhile f
        ++ ((ascRange 0 rangeTo).dropWhile f).take 1 := by
  exact ⟨rangeIterFuel_characterization f _ rangeFrom,
    rangeIterFuel_characterization f _ 0⟩

/-- C9 witness: iterating from 0 to 5 with an iteratee returning `false`
at 2 visits exactly `[0, 1, 2]`, and the two-argument form with an
always-continuing iteratee visits `[0, 1, 2, 3]` for bound 3. -/
theorem rangeEach_spec_witness :
    rangeEach 0 (some 5) (fun i => decide (i ≠ 2)) = [0, 1, 2] ∧
    rangeEach 3 none (fun _ => true) = [0, 1, 2, 3] := by
  refine ⟨?_, ?_⟩
  · exact ((rangeEach_spec 0 5 (fun i => decide (i ≠ 2)) (by decide)).1).trans
      (by decide)
  · exact ((rangeEach_spec 0 3 (fun _ => true) (by decide)).2).trans (by decide)

/-- Model of a JavaScript number for `isNumeric`: NaN, the two
infinities, or a finite value (the magnitude is irrelevant to the
claims, so finite values are carried as integers). -/
inductive JSNum where
  | nan
  | posInf
  | negInf
  | finite (val : Int)
deriving DecidableEq

/-- Model of the JavaScript values `isNumeric` dispatches on by
`typeof`: numbers, non-null-checked objects (carrying exactly the
observations the object branch makes: nullness, whether `valueOf()`
returns a number, and `instanceof Date`), strings, `undefined` and
booleans. -/
inductive JSVal where
  | num (x : JSNum)
  | obj (isNull : Bool) (valueOfIsNumber : Bool) (isDate : Bool)
  | str (s : String)
  | undef
  | boolean (b : Bool)
deriving DecidableEq

/-- Model of the ECMAScript global `isNaN` on a number. -/
def jsIsNaN : JSNum → Bool
  | .nan => true
  | _ => false

/-- Model of the ECMAScript global `isFinite` on a number. -/
def jsIsFinite : JSNum → Bool
  | .finite _ => true
  | _ => false

/-- Removal of every whitespace character: the effect of
`n.replaceAll(/\s+/g, '')` in `isNumeric` (replacing every maximal
whitespace run by the empty string removes exactly the whitespace
characters). -/
def stripWhitespace (s : String) : String :=
  ⟨s.data.filter (fun c => !c.isWhitespace)⟩

/-- Digits with at most one decimal point and at least one digit
overall: the decimal fragment of a JavaScript numeric literal. -/
def isMantissa (l : List Char) : Bool :=
  let intPart := l.takeWhile Char.isDigit
  let rest := l.dropWhile Char.isDigit
  match rest with
  | [] => !intPart.isEmpty
  | '.' :: frac => (!intPart.isEmpty || !frac.isEmpty) && frac.all Char.isDigit
  | _ => false

/-- Decimal fragment of a numeric literal with an optional sign. -/
def isSignedMantissa : List Char → Bool
  | '+' :: rest => isMantissa rest
  | '-' :: rest => isMantissa rest
  | l => isMantissa l

/-- Model of the ECMAScript `isNaN(s)` test (`Number` coercion) on a
whitespace-free string over the decimal fragment: the empty string
coerces to `0` (not NaN), and a nonempty string coerces to a number
exactly when it is a signed decimal literal (exponent, hex and
`Infinity` forms are outside the fragment the claims exercise). -/
def jsNumberIsNaN (s : String) : Bool :=
  !(s.isEmpty || isSignedMantissa s.data)

/-- Leading digit, or decimal point followed by a digit. -/
def mantissaLead : List Char → Bool
  | [] => false
  | '.' :: rest =>
      match rest with
      | d :: _ => d.isDigit
      | [] => false
  | c :: _ => c.isDigit

/-- Leading signed decimal: what `parseFloat` needs to read a number. -/
def hasFloatLead : List Char → Bool
  | '+' :: rest => mantissaLead rest
  | '-' :: rest => mantissaLead rest
  | l => mantissaLead l

/-- Model of the ECMAScript `isNaN(parseFloat(s))` test on a
whitespace-free string over the decimal fragment: `parseFloat` yields
NaN exactly when the string has no leading signed decimal. -/
def jsParseFloatIsNaN (s : String) : Bool :=
  !(hasFloatLead s.data)

/-- Embedding of `isNumeric` (`src/helpers/number.js` lines 7–18):
dispatch on `typeof`; a number passes when neither NaN nor non-finite,
an object passes when non-null with a numeric `valueOf()` and not a
`Date` instance, a string has every whitespace character removed before
the numeric test, and every other type fails. -/
def isNumeric : JSVal → Bool
  | .num x => !(jsIsNaN x) && jsIsFinite x
  | .obj isNull valueOfIsNumber isDate => !isNull && valueOfIsNumber && !isDate
  | .str s =>
      let str := stripWhitespace s
      !(jsNumberIsNaN str) && !(jsParseFloatIsNaN str)
  | .undef => false
  | .boolean _ => false

/-- C10: `isNumeric` returns false on every `Date` instance and on every
non-finite number (NaN and the two infinities), and on string input all
whitespace is removed before the numeric test, so `'1 2'` is classified
as numeric. -/
theorem isNumeric_spec :
    (∀ isNull valueOfIsNumber : Bool,
      isNumeric (.obj isNull valueOfIsNumber true) = false) ∧
    isNumeric (.num .nan) = false ∧
    isNumeric (.num .posInf) = false ∧
    isNumeric (.num .negInf) = false ∧
    (∀ s : String, isNumeric (.str s)
      = (!(jsNumberIsNaN (stripWhitespace s))
          && !(jsParseFloatIsNaN (stripWhitespace s)))) ∧
    isNumeric (.str "1 2") = true := by
  refine ⟨?_, rfl, rfl, rfl, fun s => rfl, by decide⟩
  intro b1 b2
  simp [isNumeric]
